import Mathlib

set_option maxHeartbeats 1000000
set_option maxRecDepth 10000

/-!
Shallow embedding of `src/babyvm.c`: a tiny VM with a mark-and-sweep garbage
collector.  Pointers are modelled as natural-number ids.  The allocator's
intrusive linked list of objects (`vm->firstObject` chained through
`object->next`) is modelled as an association list `List (Nat × Object)` in
linked-list order (the head of the list is `firstObject`); `malloc` draws a
fresh id from a counter (`nextId`), standing for the fresh address returned by
the allocator.  The `printf` narration of the C code is diagnostic only and is
dropped, except that the counters it reports (`swept`, `freed`) are kept as
real values of the embedding where a claim is about them.
-/

/-- C enum `ObjectType` (babyvm.c lines 9-12). -/
inductive ObjectType where
  | OBJ_INT : ObjectType
  | OBJ_PAIR : ObjectType
deriving DecidableEq

/-- C struct `sObject` (babyvm.c lines 15-42).  The union is flattened:
`value` is the `OBJ_INT` payload, `head`/`tail` the `OBJ_PAIR` payload
(fresh objects carry junk defaults until the allocation path fills them in,
as in C, where malloc'd memory is indeterminate).  The intrusive `next`
pointer is represented by the object's position in the heap list. -/
structure Object where
  type : ObjectType
  marked : Bool
  value : Int
  head : Nat
  tail : Nat
deriving DecidableEq

/-- The allocator's memory: every currently malloc'd object, keyed by its
address, in the order of the `firstObject`/`next` intrusive list. -/
abbrev Heap := List (Nat × Object)

/-- Dereference an object pointer: find the object stored at address `i`
(the first entry with that key; the allocation path never produces
duplicate keys, since ids are drawn from a strictly increasing counter). -/
def lookupObj : Heap → Nat → Option Object
  | [], _ => none
  | p :: rest, i => if p.1 = i then some p.2 else lookupObj rest i

/-- Mutate the object stored at address `i` in place (first entry with that
key), as a C field assignment through a pointer does. -/
def hupd : Heap → Nat → (Object → Object) → Heap
  | [], _, _ => []
  | p :: rest, i, f => if p.1 = i then (i, f p.2) :: rest else p :: hupd rest i f

/-- Number of heap entries whose `marked` flag is clear.  Used as the
termination measure for the recursive `mark`. -/
def unmarkedCount (h : Heap) : Nat :=
  (h.filter fun p => !p.2.marked).length

/-- C `mark` (babyvm.c lines 67-81), with explicit fuel for the recursion.
If the object is already marked it returns at once (the cycle guard, line
71); otherwise it sets the mark (line 74) and, for a pair, recursively marks
`head` then `tail` (lines 77-80).  Dereferencing an address that is not in
the heap is undefined behaviour in the C source (it never happens in a
well-formed run, where every root and every pair edge is a live object);
it is modelled as a no-op.  `markFuel_fuel_irrel` below shows that any fuel
above `unmarkedCount h` gives the same result, so the recursion terminates
on every heap, cyclic graphs included. -/
def markFuel : Nat → Heap → Nat → Heap
  | 0, h, _ => h
  | fuel + 1, h, i =>
    match lookupObj h i with
    | none => h
    | some o =>
      if o.marked then h
      else
        let h1 := hupd h i fun x => { x with marked := true }
        match o.type with
        | ObjectType.OBJ_INT => h1
        | ObjectType.OBJ_PAIR => markFuel fuel (markFuel fuel h1 o.head) o.tail

/-- C `mark`, run with always-sufficient fuel. -/
def mark (h : Heap) (i : Nat) : Heap :=
  markFuel (unmarkedCount h + 1) h i

/-- C struct `VM` (babyvm.c lines 45-59).  The fixed array `stack` together
with `stackSize` is modelled as a list whose head is the top of the stack;
`firstObject` is the heap list; `nextId` models the allocator's supply of
fresh addresses. -/
structure VM where
  stack : List Nat
  numObjects : Int
  maxObjects : Int
  firstObject : Heap
  nextId : Nat
deriving DecidableEq

/-- C macro `STACK_MAX` (babyvm.c line 5). -/
def STACK_MAX : Nat := 256

/-- C `newVM` (babyvm.c lines 61-65).  The C code mallocs the struct and
initializes only `stackSize`; `numObjects`, `maxObjects` and `firstObject`
keep whatever indeterminate values the malloc'd memory held, modelled here
as explicit junk parameters (`junkNum`, `junkMax`, `junkFirst`). -/
def newVM (junkNum junkMax : Int) (junkFirst : Heap) (nextId : Nat) : VM :=
  { stack := [], numObjects := junkNum, maxObjects := junkMax,
    firstObject := junkFirst, nextId := nextId }

/-- C `markAll`'s loop over `vm->stack[0] .. vm->stack[stackSize-1]`
(babyvm.c lines 88-90), over an explicit list of roots. -/
def markAllGo : Heap → List Nat → Heap
  | h, [] => h
  | h, r :: rs => markAllGo (mark h r) rs

/-- C `markAll` (babyvm.c lines 86-91): mark every object reachable from the
stack.  The C loop runs from the bottom of the stack up, i.e. over the
reverse of the top-first list. -/
def markAll (vm : VM) : VM :=
  { vm with firstObject := markAllGo vm.firstObject vm.stack.reverse }

/-- C `sweep`'s list walk (babyvm.c lines 96-118): drop (free) every
unmarked entry, clear the mark of every kept entry, and count the number
freed (the `freed` counter the C code prints at line 119). -/
def sweepGo : Heap → Heap × Nat
  | [] => ([], 0)
  | p :: rest =>
    if p.2.marked then
      ((p.1, { p.2 with marked := false }) :: (sweepGo rest).1, (sweepGo rest).2)
    else
      ((sweepGo rest).1, (sweepGo rest).2 + 1)

/-- C `sweep` (babyvm.c lines 95-120): rebuild the allocation list, decrement
`numObjects` once per freed object (line 109), and report the `freed`
counter (printed at line 119). -/
def sweep (vm : VM) : VM × Nat :=
  ({ vm with firstObject := (sweepGo vm.firstObject).1,
             numObjects := vm.numObjects - ((sweepGo vm.firstObject).2 : Int) },
   (sweepGo vm.firstObject).2)

/-- C `gc` (babyvm.c lines 123-136): mark, sweep, then set the threshold to
twice the surviving object count (line 134).  The C function is `void`: the
`freed` count computed by the sweep is printed but not returned. -/
def gc (vm : VM) : VM :=
  { (sweep (markAll vm)).1 with
    maxObjects := (sweep (markAll vm)).1.numObjects * 2 }

/-- The `freed` counter computed (and printed) by the sweep phase of a run
of `gc` — the number of objects reclaimed by that collection. -/
def gcFreed (vm : VM) : Nat :=
  (sweep (markAll vm)).2

/-- The specification's `forceCollect`: running the collector
unconditionally, bypassing the allocation-path trigger check.  In the C
source this is exactly a direct call of `gc`, as `main` performs at line
220. -/
def forceCollect (vm : VM) : VM :=
  gc vm

/-- C `push` (babyvm.c lines 139-143).  `assert(vm->stackSize < STACK_MAX)`
aborts the call before any mutation when the stack is full; the abort is
modelled as `none`. -/
def push (vm : VM) (value : Nat) : Option VM :=
  if vm.stack.length < STACK_MAX then
    some { vm with stack := value :: vm.stack }
  else
    none

/-- C `pop` (babyvm.c lines 146-149).  `assert(vm->stackSize > 0)` aborts
the call before any mutation when the stack is empty; the abort is modelled
as `none`. -/
def pop (vm : VM) : Option (Nat × VM) :=
  match vm.stack with
  | [] => none
  | x :: rest => some (x, { vm with stack := rest })

/-- The allocation proper of C `newObject` (babyvm.c lines 164-179): malloc
a fresh object, set its type, clear its mark, link it at the front of the
allocation list, and increment `numObjects`.  The payload fields keep junk
defaults (zero here), as malloc'd memory is indeterminate until the caller
fills them in. -/
def allocRaw (vm : VM) (type : ObjectType) : VM × Nat :=
  ({ vm with
      firstObject :=
        (vm.nextId, { type := type, marked := false, value := 0, head := 0, tail := 0 })
          :: vm.firstObject,
      numObjects := vm.numObjects + 1,
      nextId := vm.nextId + 1 },
   vm.nextId)

/-- C `newObject` (babyvm.c lines 152-180): if `numObjects == maxObjects`
(an equality comparison, line 157) run the collector, then allocate. -/
def newObject (vm : VM) (type : ObjectType) : VM × Nat :=
  allocRaw (if vm.numObjects = vm.maxObjects then gc vm else vm) type

/-- C `pushInt` (babyvm.c lines 182-186): allocate an `OBJ_INT`, store the
value through the returned pointer (`object->value = intValue`), and push
it. -/
def pushInt (vm : VM) (intValue : Int) : Option VM :=
  let r := newObject vm ObjectType.OBJ_INT
  let vm2 := { r.1 with firstObject := hupd r.1.firstObject r.2 fun o => { o with value := intValue } }
  push vm2 r.2

/-- C `pushPair` (babyvm.c lines 188-195): allocate an `OBJ_PAIR`, then
`object->tail = pop(vm); object->head = pop(vm);` — the first popped
reference becomes `tail`, the second becomes `head` — then push the pair. -/
def pushPair (vm : VM) : Option (VM × Nat) :=
  let r := newObject vm ObjectType.OBJ_PAIR
  match pop r.1 with
  | none => none
  | some t =>
    let vm2 := { t.2 with firstObject := hupd t.2.firstObject r.2 fun o => { o with tail := t.1 } }
    match pop vm2 with
    | none => none
    | some hd =>
      let vm3 := { hd.2 with firstObject := hupd hd.2.firstObject r.2 fun o => { o with head := hd.1 } }
      match push vm3 r.2 with
      | none => none
      | some vm4 => some (vm4, r.2)

/-- An object is marked in the heap. -/
def markedIn (h : Heap) (i : Nat) : Prop :=
  ∃ o, lookupObj h i = some o ∧ o.marked = true

/-- Clearing an object's mark; used to state that marking changes nothing
but mark bits. -/
def unmarkObj (o : Object) : Object :=
  { o with marked := false }

/-- Every object in the allocation list has its mark clear (the
between-collections rest state of the `marked` flags). -/
def allUnmarked (h : Heap) : Prop :=
  ∀ p ∈ h, p.2.marked = false

instance (h : Heap) : Decidable (allUnmarked h) :=
  inferInstanceAs (Decidable (∀ p ∈ h, p.2.marked = false))

/-- Every address in the heap is below the allocator's fresh-address
counter (freshly malloc'd addresses are new). -/
def keysLt (h : Heap) (n : Nat) : Prop :=
  ∀ p ∈ h, p.1 < n

instance (h : Heap) (n : Nat) : Decidable (keysLt h n) :=
  inferInstanceAs (Decidable (∀ p ∈ h, p.1 < n))

/-- Reachability by following `head`/`second` pair edges from an object,
through the heap: the transitive roots-to-object relation of the spec.
Every object on the path, the endpoints included, must be present in the
heap. -/
inductive Reaches (h : Heap) : Nat → Nat → Prop where
  | refl (i : Nat) (o : Object) (hl : lookupObj h i = some o) : Reaches h i i
  | viaHead (i : Nat) (o : Object) (j : Nat) (hl : lookupObj h i = some o)
      (ht : o.type = ObjectType.OBJ_PAIR) (hr : Reaches h o.head j) : Reaches h i j
  | viaTail (i : Nat) (o : Object) (j : Nat) (hl : lookupObj h i = some o)
      (ht : o.type = ObjectType.OBJ_PAIR) (hr : Reaches h o.tail j) : Reaches h i j

/-- A runtime context as `main` observes it right after construction: the C
program relies on the malloc'd `VM` memory being zeroed (`numObjects = 0`,
`firstObject = NULL`) and then stores the initial threshold, as `main` does
at line 200. -/
def initVM (threshold : Int) : VM :=
  newVM 0 threshold [] 0

/-- A heap containing a cycle: object 0 is a pair whose `head` is the
integer object 1 and whose `tail` points back to object 0 itself. -/
def cycHeap : Heap :=
  [(0, { type := ObjectType.OBJ_PAIR, marked := false, value := 0, head := 1, tail := 0 }),
   (1, { type := ObjectType.OBJ_INT, marked := false, value := 7, head := 0, tail := 0 })]

/-- A context whose single root is the cyclic pair of `cycHeap`. -/
def vmCyc : VM :=
  { stack := [0], numObjects := 2, maxObjects := 4, firstObject := cycHeap, nextId := 2 }

/-- A context with an empty allocation list. -/
def vmGcA : VM :=
  { stack := [], numObjects := 0, maxObjects := 0, firstObject := [], nextId := 1 }

/-- A context with one unrooted (hence collectable) object. -/
def vmGcB : VM :=
  { stack := [], numObjects := 1, maxObjects := 7,
    firstObject := [(0, { type := ObjectType.OBJ_INT, marked := false, value := 0,
                          head := 0, tail := 0 })],
    nextId := 1 }

/-- A context sitting exactly at its collection threshold. -/
def vmEqTrig : VM :=
  { stack := [], numObjects := 0, maxObjects := 0, firstObject := [], nextId := 0 }

/-- A context strictly below its collection threshold. -/
def vmNeTrig : VM :=
  { stack := [], numObjects := 0, maxObjects := 5, firstObject := [], nextId := 0 }

/-- A context with three rooted ids and an irrelevant heap, for exercising
the pair-construction pop order. -/
def vmStk : VM :=
  { stack := [7, 8, 9], numObjects := 5, maxObjects := 3, firstObject := [], nextId := 4 }

/-- A context whose root set is at capacity. -/
def vmFull : VM :=
  { stack := List.replicate STACK_MAX 0, numObjects := 0, maxObjects := 1,
    firstObject := [], nextId := 0 }

/-- A context with a single root (so a pair allocation underflows on its
second pop). -/
def vmOne : VM :=
  { stack := [5], numObjects := 0, maxObjects := 1, firstObject := [], nextId := 0 }

/-- A context holding two rooted integers and sitting exactly at its
threshold, so that allocating a pair triggers a collection first. -/
def vmOps : VM :=
  { stack := [0, 1], numObjects := 2, maxObjects := 2,
    firstObject :=
      [(0, { type := ObjectType.OBJ_INT, marked := false, value := 5, head := 0, tail := 0 }),
       (1, { type := ObjectType.OBJ_INT, marked := false, value := 6, head := 0, tail := 0 })],
    nextId := 2 }

/-- The context `pushInt vmOps 3` produces (the triggered collection keeps
both rooted integers, then the new integer is allocated and pushed). -/
def vmOpsInt : VM :=
  { stack := [2, 0, 1], numObjects := 3, maxObjects := 4,
    firstObject :=
      [(2, { type := ObjectType.OBJ_INT, marked := false, value := 3, head := 0, tail := 0 }),
       (0, { type := ObjectType.OBJ_INT, marked := false, value := 5, head := 0, tail := 0 }),
       (1, { type := ObjectType.OBJ_INT, marked := false, value := 6, head := 0, tail := 0 })],
    nextId := 3 }

/-- The context `pushPair vmOps` produces. -/
def vmOpsPair : VM :=
  { stack := [2], numObjects := 3, maxObjects := 4,
    firstObject :=
      [(2, { type := ObjectType.OBJ_PAIR, marked := false, value := 0, head := 1, tail := 0 }),
       (0, { type := ObjectType.OBJ_INT, marked := false, value := 5, head := 0, tail := 0 }),
       (1, { type := ObjectType.OBJ_INT, marked := false, value := 6, head := 0, tail := 0 })],
    nextId := 3 }

/-! Basic heap lemmas. -/

theorem lookupObj_mem {h : Heap} {i : Nat} {o : Object}
    (hl : lookupObj h i = some o) : (i, o) ∈ h := by
  induction h with
  | nil => simp [lookupObj] at hl
  | cons p rest ih =>
    by_cases hp : p.1 = i
    · simp [lookupObj, hp] at hl
      subst hl
      have hpe : (i, p.2) = p := by rw [← hp]
      rw [hpe]
      exact List.mem_cons_self _ _
    · simp [lookupObj, hp] at hl
      exact List.mem_cons_of_mem _ (ih hl)

theorem lookupObj_hupd_self {h : Heap} {i : Nat} {o : Object} (f : Object → Object)
    (hl : lookupObj h i = some o) : lookupObj (hupd h i f) i = some (f o) := by
  induction h with
  | nil => simp [lookupObj] at hl
  | cons p rest ih =>
    by_cases hp : p.1 = i
    · simp [lookupObj, hp] at hl
      simp [hupd, hp, lookupObj, hl]
    · simp [lookupObj, hp] at hl
      simp [hupd, hp, lookupObj, ih hl]

theorem lookupObj_hupd_ne {h : Heap} {i j : Nat} (f : Object → Object)
    (hne : i ≠ j) : lookupObj (hupd h i f) j = lookupObj h j := by
  induction h with
  | nil => simp [hupd]
  | cons p rest ih =>
    by_cases hp : p.1 = i
    · simp [hupd, hp, lookupObj, hne, hp ▸ hne]
    · simp [hupd, hp, lookupObj, ih]

theorem lookupObj_hupd_none {h : Heap} {i j : Nat} (f : Object → Object) :
    lookupObj (hupd h i f) j = none ↔ lookupObj h j = none := by
  induction h with
  | nil => simp [hupd]
  | cons p rest ih =>
    by_cases hp : p.1 = i
    · by_cases hj : i = j
      · subst hj
        simp [hupd, hp, lookupObj]
      · simp [hupd, hp, lookupObj, hj, fun hh : p.1 = j => hj (hp ▸ hh)]
    · by_cases hj : p.1 = j
      · have hji : ¬j = i := fun hh => hp (hj.trans hh)
        simp [hupd, hp, lookupObj, hj, hji]
      · simp [hupd, hp, lookupObj, hj, ih]

theorem hupd_length {h : Heap} {i : Nat} (f : Object → Object) :
    (hupd h i f).length = h.length := by
  induction h with
  | nil => rfl
  | cons p rest ih =>
    by_cases hp : p.1 = i <;> simp [hupd, hp, ih]

/-- Marking a present, unmarked object decreases the unmarked-entry count by
exactly one. -/
theorem unmarkedCount_hupd_mark {h : Heap} {i : Nat} {o : Object}
    (hl : lookupObj h i = some o) (hm : o.marked = false) :
    unmarkedCount (hupd h i fun x => { x with marked := true }) + 1 = unmarkedCount h := by
  induction h with
  | nil => simp [lookupObj] at hl
  | cons p rest ih =>
    by_cases hp : p.1 = i
    · simp [lookupObj, hp] at hl
      subst hl
      simp [hupd, hp, unmarkedCount, List.filter, hm]
    · simp [lookupObj, hp] at hl
      have := ih hl
      by_cases hpm : p.2.marked <;>
        simp [hupd, hp, unmarkedCount, List.filter, hpm] at this ⊢ <;> omega

theorem unmarkedCount_pos {h : Heap} {i : Nat} {o : Object}
    (hl : lookupObj h i = some o) (hm : o.marked = false) : 1 ≤ unmarkedCount h := by
  have := unmarkedCount_hupd_mark hl hm
  omega

/-- One-step unfolding of `markFuel` at positive fuel. -/
theorem markFuel_succ (fuel : Nat) (h : Heap) (i : Nat) :
    markFuel (fuel + 1) h i =
      match lookupObj h i with
      | none => h
      | some o =>
        if o.marked then h
        else
          match o.type with
          | ObjectType.OBJ_INT => hupd h i fun x => { x with marked := true }
          | ObjectType.OBJ_PAIR =>
              markFuel fuel
                (markFuel fuel (hupd h i fun x => { x with marked := true }) o.head)
                o.tail := by
  rfl

/-! Branch equations for `markFuel`. -/

theorem markFuel_none {h : Heap} {i : Nat} (fuel : Nat)
    (hli : lookupObj h i = none) : markFuel (fuel + 1) h i = h := by
  rw [markFuel_succ, hli]

theorem markFuel_marked {h : Heap} {i : Nat} {o : Object} (fuel : Nat)
    (hli : lookupObj h i = some o) (hm : o.marked = true) :
    markFuel (fuel + 1) h i = h := by
  rw [markFuel_succ, hli]
  simp [hm]

theorem markFuel_int {h : Heap} {i : Nat} {o : Object} (fuel : Nat)
    (hli : lookupObj h i = some o) (hm : o.marked = false)
    (ht : o.type = ObjectType.OBJ_INT) :
    markFuel (fuel + 1) h i = hupd h i fun x => { x with marked := true } := by
  rw [markFuel_succ, hli]
  simp [hm, ht]

theorem markFuel_pair {h : Heap} {i : Nat} {o : Object} (fuel : Nat)
    (hli : lookupObj h i = some o) (hm : o.marked = false)
    (ht : o.type = ObjectType.OBJ_PAIR) :
    markFuel (fuel + 1) h i =
      markFuel fuel
        (markFuel fuel (hupd h i fun x => { x with marked := true }) o.head)
        o.tail := by
  rw [markFuel_succ, hli]
  simp [hm, ht]

theorem unmarkObj_eq_self {o : Object} (hm : o.marked = false) : unmarkObj o = o := by
  cases o
  simp only [unmarkObj] at hm ⊢
  simp [hm]

/-- Marking an object changes nothing but mark bits. -/
theorem lookupObj_hupd_mark_unmark {h : Heap} {i : Nat} {o : Object}
    (hl : lookupObj h i = some o) (j : Nat) :
    (lookupObj (hupd h i fun x => { x with marked := true }) j).map unmarkObj
      = (lookupObj h j).map unmarkObj := by
  by_cases hji : j = i
  · subst hji
    rw [lookupObj_hupd_self _ hl, hl]
    simp [unmarkObj]
  · rw [lookupObj_hupd_ne _ fun hh => hji hh.symm]

/-- `mark` changes nothing but mark bits: looking up any address after
marking gives the same object up to its `marked` flag. -/
theorem lookupObj_markFuel_unmark :
    ∀ (fuel : Nat) (h : Heap) (i j : Nat),
    (lookupObj (markFuel fuel h i) j).map unmarkObj = (lookupObj h j).map unmarkObj := by
  intro fuel
  induction fuel with
  | zero => intro h i j; rfl
  | succ f ih =>
    intro h i j
    cases hli : lookupObj h i with
    | none => rw [markFuel_none f hli]
    | some oi =>
      by_cases hoim : oi.marked = true
      · rw [markFuel_marked f hli hoim]
      · rw [Bool.not_eq_true] at hoim
        cases hot : oi.type with
        | OBJ_INT =>
          rw [markFuel_int f hli hoim hot]
          exact lookupObj_hupd_mark_unmark hli j
        | OBJ_PAIR =>
          rw [markFuel_pair f hli hoim hot]
          rw [ih, ih]
          exact lookupObj_hupd_mark_unmark hli j

/-- `mark` never frees: an address is dangling after marking iff it was
dangling before. -/
theorem lookupObj_markFuel_none {fuel : Nat} {h : Heap} {i j : Nat} :
    lookupObj (markFuel fuel h i) j = none ↔ lookupObj h j = none := by
  have := lookupObj_markFuel_unmark fuel h i j
  constructor
  · intro hn
    rw [hn] at this
    exact Option.map_eq_none'.mp this.symm
  · intro hn
    rw [hn] at this
    exact Option.map_eq_none'.mp this

theorem markedIn_hupd_mark {h : Heap} {i j : Nat}
    (hm : markedIn h j) : markedIn (hupd h i fun x => { x with marked := true }) j := by
  obtain ⟨o, hl, hmk⟩ := hm
  by_cases hji : j = i
  · subst hji
    exact ⟨{ o with marked := true }, lookupObj_hupd_self _ hl, rfl⟩
  · refine ⟨o, ?_, hmk⟩
    rw [lookupObj_hupd_ne _ fun hh => hji hh.symm]
    exact hl

/-- Once marked, an object stays marked through any further marking. -/
theorem markedIn_markFuel_mono :
    ∀ (fuel : Nat) (h : Heap) (i : Nat) {j : Nat},
    markedIn h j → markedIn (markFuel fuel h i) j := by
  intro fuel
  induction fuel with
  | zero => intro h i j hm; exact hm
  | succ f ih =>
    intro h i j hm
    cases hli : lookupObj h i with
    | none => rw [markFuel_none f hli]; exact hm
    | some oi =>
      by_cases hoim : oi.marked = true
      · rw [markFuel_marked f hli hoim]; exact hm
      · rw [Bool.not_eq_true] at hoim
        cases hot : oi.type with
        | OBJ_INT =>
          rw [markFuel_int f hli hoim hot]
          exact markedIn_hupd_mark hm
        | OBJ_PAIR =>
          rw [markFuel_pair f hli hoim hot]
          exact ih _ _ (ih _ _ (markedIn_hupd_mark hm))

/-- Marking never clears marks: the unmarked-entry count never grows. -/
theorem unmarkedCount_markFuel_le :
    ∀ (fuel : Nat) (h : Heap) (i : Nat),
    unmarkedCount (markFuel fuel h i) ≤ unmarkedCount h := by
  intro fuel
  induction fuel with
  | zero => intro h i; exact Nat.le_refl _
  | succ f ih =>
    intro h i
    cases hli : lookupObj h i with
    | none => rw [markFuel_none f hli]
    | some oi =>
      by_cases hoim : oi.marked = true
      · rw [markFuel_marked f hli hoim]
      · rw [Bool.not_eq_true] at hoim
        have hcnt := unmarkedCount_hupd_mark hli hoim
        cases hot : oi.type with
        | OBJ_INT =>
          rw [markFuel_int f hli hoim hot]
          omega
        | OBJ_PAIR =>
          rw [markFuel_pair f hli hoim hot]
          have h1 := ih (hupd h i fun x => { x with marked := true }) oi.head
          have h2 := ih (markFuel f (hupd h i fun x => { x with marked := true }) oi.head) oi.tail
          omega

/-- The root passed to `mark` ends up marked (it either already was, or the
first thing `mark` does is set its flag). -/
theorem markFuel_marks_root {fuel : Nat} {h : Heap} {i : Nat} {o : Object}
    (hf : unmarkedCount h ≤ fuel) (hl : lookupObj h i = some o) :
    markedIn (markFuel fuel h i) i := by
  by_cases hm : o.marked = true
  · exact markedIn_markFuel_mono fuel h i ⟨o, hl, hm⟩
  · rw [Bool.not_eq_true] at hm
    have hpos : 1 ≤ unmarkedCount h := unmarkedCount_pos hl hm
    obtain ⟨f, rfl⟩ : ∃ f, fuel = f + 1 := ⟨fuel - 1, by omega⟩
    have hroot : markedIn (hupd h i fun x => { x with marked := true }) i :=
      ⟨{ o with marked := true }, lookupObj_hupd_self _ hl, rfl⟩
    cases hot : o.type with
    | OBJ_INT => rw [markFuel_int f hl hm hot]; exact hroot
    | OBJ_PAIR =>
      rw [markFuel_pair f hl hm hot]
      exact markedIn_markFuel_mono _ _ _ (markedIn_markFuel_mono _ _ _ hroot)

/-- Fuel irrelevance: any fuel beyond the number of unmarked objects gives
the same result — the recursion of `mark` needs at most one step per
unmarked object, so it terminates on every heap, cyclic ones included. -/
theorem markFuel_fuel_irrel :
    ∀ (f₁ : Nat) {f₂ : Nat} (h : Heap) (i : Nat),
    unmarkedCount h < f₁ → unmarkedCount h < f₂ →
    markFuel f₁ h i = markFuel f₂ h i := by
  intro f₁
  induction f₁ with
  | zero => intro f₂ h i h1 _; omega
  | succ f ih =>
    intro f₂ h i h1 h2
    obtain ⟨g, rfl⟩ : ∃ g, f₂ = g + 1 := ⟨f₂ - 1, by omega⟩
    cases hli : lookupObj h i with
    | none => rw [markFuel_none f hli, markFuel_none g hli]
    | some oi =>
      by_cases hoim : oi.marked = true
      · rw [markFuel_marked f hli hoim, markFuel_marked g hli hoim]
      · rw [Bool.not_eq_true] at hoim
        have hcnt := unmarkedCount_hupd_mark hli hoim
        cases hot : oi.type with
        | OBJ_INT => rw [markFuel_int f hli hoim hot, markFuel_int g hli hoim hot]
        | OBJ_PAIR =>
          rw [markFuel_pair f hli hoim hot, markFuel_pair g hli hoim hot]
          have e1 : markFuel f (hupd h i fun x => { x with marked := true }) oi.head
              = markFuel g (hupd h i fun x => { x with marked := true }) oi.head :=
            ih _ _ (by omega) (by omega)
          rw [e1]
          have hle := unmarkedCount_markFuel_le g
            (hupd h i fun x => { x with marked := true }) oi.head
          exact ih _ _ (by omega) (by omega)

theorem not_markedIn_of_unmarked {h : Heap} {j : Nat} {o : Object}
    (hl : lookupObj h j = some o) (hm : o.marked = false) : ¬markedIn h j := by
  rintro ⟨o', hl', hm'⟩
  rw [hl] at hl'
  injection hl' with he
  subst he
  rw [hm] at hm'
  simp at hm'

theorem lookupObj_hupd_isSome {h : Heap} {i j : Nat} {o : Object} (f : Object → Object)
    (hl : lookupObj h j = some o) : ∃ o', lookupObj (hupd h i f) j = some o' := by
  cases he : lookupObj (hupd h i f) j with
  | none =>
    rw [lookupObj_hupd_none] at he
    rw [he] at hl
    simp at hl
  | some o' => exact ⟨o', rfl⟩

theorem lookupObj_markFuel_isSome {fuel : Nat} {h : Heap} {i j : Nat} {o : Object}
    (hl : lookupObj h j = some o) : ∃ o', lookupObj (markFuel fuel h i) j = some o' := by
  cases he : lookupObj (markFuel fuel h i) j with
  | none =>
    rw [lookupObj_markFuel_none] at he
    rw [he] at hl
    simp at hl
  | some o' => exact ⟨o', rfl⟩

/-- Closure of a completed `mark` call: any object that was unmarked before
the call and is marked after it is a traversal visit, so if it is a pair,
both of its edges end up marked too (unless they dangle, which cannot
happen in a well-formed run). -/
theorem markFuel_closure :
    ∀ (fuel : Nat) (h : Heap) (i : Nat),
    unmarkedCount h ≤ fuel →
    ∀ {j : Nat} {o : Object}, lookupObj h j = some o → o.marked = false →
      markedIn (markFuel fuel h i) j → o.type = ObjectType.OBJ_PAIR →
      (lookupObj h o.head = none ∨ markedIn (markFuel fuel h i) o.head) ∧
      (lookupObj h o.tail = none ∨ markedIn (markFuel fuel h i) o.tail) := by
  intro fuel
  induction fuel with
  | zero =>
    intro h i hf j o hlj hom hmk hot
    exact absurd hmk (not_markedIn_of_unmarked hlj hom)
  | succ f ih =>
    intro h i hf j o hlj hom hmk hot
    cases hli : lookupObj h i with
    | none =>
      rw [markFuel_none f hli] at hmk ⊢
      exact absurd hmk (not_markedIn_of_unmarked hlj hom)
    | some oi =>
      by_cases hoim : oi.marked = true
      · rw [markFuel_marked f hli hoim] at hmk ⊢
        exact absurd hmk (not_markedIn_of_unmarked hlj hom)
      · rw [Bool.not_eq_true] at hoim
        have hcnt := unmarkedCount_hupd_mark hli hoim
        cases hoit : oi.type with
        | OBJ_INT =>
          rw [markFuel_int f hli hoim hoit] at hmk ⊢
          by_cases hji : j = i
          · subst hji
            rw [hlj] at hli
            injection hli with he
            subst he
            rw [hot] at hoit
            simp at hoit
          · have : lookupObj (hupd h i fun x => { x with marked := true }) j = some o := by
              rw [lookupObj_hupd_ne _ fun hh => hji hh.symm]
              exact hlj
            exact absurd hmk (not_markedIn_of_unmarked this hom)
        | OBJ_PAIR =>
          rw [markFuel_pair f hli hoim hoit] at hmk ⊢
          have hc1 : unmarkedCount (hupd h i fun x => { x with marked := true }) ≤ f := by
            omega
          have hc2 : unmarkedCount
              (markFuel f (hupd h i fun x => { x with marked := true }) oi.head) ≤ f :=
            le_trans (unmarkedCount_markFuel_le f _ _) hc1
          by_cases hji : j = i
          · subst hji
            rw [hlj] at hli
            injection hli with he
            subst he
            constructor
            · cases hhd : lookupObj h o.head with
              | none => exact Or.inl rfl
              | some oh =>
                right
                have hs1 : ∃ oh', lookupObj (hupd h j fun x => { x with marked := true })
                    o.head = some oh' := lookupObj_hupd_isSome _ hhd
                obtain ⟨oh', hoh'⟩ := hs1
                exact markedIn_markFuel_mono f _ _ (markFuel_marks_root hc1 hoh')
            · cases htl : lookupObj h o.tail with
              | none => exact Or.inl rfl
              | some ot =>
                right
                have hs1 : ∃ ot', lookupObj (hupd h j fun x => { x with marked := true })
                    o.tail = some ot' := lookupObj_hupd_isSome _ htl
                obtain ⟨ot', hot'⟩ := hs1
                have hs2 : ∃ ot'', lookupObj
                    (markFuel f (hupd h j fun x => { x with marked := true }) o.head)
                    o.tail = some ot'' := lookupObj_markFuel_isSome hot'
                obtain ⟨ot'', hot''⟩ := hs2
                exact markFuel_marks_root hc2 hot''
          · have hlj1 : lookupObj (hupd h i fun x => { x with marked := true }) j
                = some o := by
              rw [lookupObj_hupd_ne _ fun hh => hji hh.symm]
              exact hlj
            by_cases hm2 : markedIn
                (markFuel f (hupd h i fun x => { x with marked := true }) oi.head) j
            · have hcl := ih (hupd h i fun x => { x with marked := true }) oi.head
                hc1 hlj1 hom hm2 hot
              constructor
              · cases hcl.1 with
                | inl hn =>
                  exact Or.inl ((lookupObj_hupd_none _).mp hn)
                | inr hmkd =>
                  exact Or.inr (markedIn_markFuel_mono f _ _ hmkd)
              · cases hcl.2 with
                | inl hn =>
                  exact Or.inl ((lookupObj_hupd_none _).mp hn)
                | inr hmkd =>
                  exact Or.inr (markedIn_markFuel_mono f _ _ hmkd)
            · have hlj2 : lookupObj
                  (markFuel f (hupd h i fun x => { x with marked := true }) oi.head) j
                  = some o := by
                have hmap := lookupObj_markFuel_unmark f
                  (hupd h i fun x => { x with marked := true }) oi.head j
                rw [hlj1] at hmap
                cases hl2 : lookupObj
                    (markFuel f (hupd h i fun x => { x with marked := true }) oi.head) j with
                | none => rw [hl2] at hmap; simp at hmap
                | some o2 =>
                  rw [hl2] at hmap
                  simp only [Option.map_some'] at hmap
                  injection hmap with hmap'
                  have ho2m : o2.marked = false := by
                    cases hb : o2.marked with
                    | false => rfl
                    | true => exact absurd ⟨o2, hl2, hb⟩ hm2
                  have : o2 = o := by
                    calc o2 = unmarkObj o2 := (unmarkObj_eq_self ho2m).symm
                    _ = unmarkObj o := hmap'
                    _ = o := unmarkObj_eq_self hom
                  rw [this]
              have hcl := ih
                (markFuel f (hupd h i fun x => { x with marked := true }) oi.head)
                oi.tail hc2 hlj2 hom hmk hot
              constructor
              · cases hcl.1 with
                | inl hn =>
                  refine Or.inl ?_
                  rw [lookupObj_markFuel_none, lookupObj_hupd_none] at hn
                  exact hn
                | inr hmkd => exact Or.inr hmkd
              · cases hcl.2 with
                | inl hn =>
                  refine Or.inl ?_
                  rw [lookupObj_markFuel_none, lookupObj_hupd_none] at hn
                  exact hn
                | inr hmkd => exact Or.inr hmkd

/-- An object left unmarked by a `mark` call is looked up unchanged. -/
theorem lookupObj_markFuel_unmarked_eq {fuel : Nat} {h : Heap} {i j : Nat} {o : Object}
    (hl : lookupObj h j = some o) (hom : o.marked = false)
    (hnm : ¬markedIn (markFuel fuel h i) j) :
    lookupObj (markFuel fuel h i) j = some o := by
  have hmap := lookupObj_markFuel_unmark fuel h i j
  rw [hl] at hmap
  cases hl2 : lookupObj (markFuel fuel h i) j with
  | none => rw [hl2] at hmap; simp at hmap
  | some o2 =>
    rw [hl2] at hmap
    simp only [Option.map_some'] at hmap
    injection hmap with hmap'
    have ho2m : o2.marked = false := by
      cases hb : o2.marked with
      | false => rfl
      | true => exact absurd ⟨o2, hl2, hb⟩ hnm
    have : o2 = o := by
      calc o2 = unmarkObj o2 := (unmarkObj_eq_self ho2m).symm
      _ = unmarkObj o := hmap'
      _ = o := unmarkObj_eq_self hom
    rw [this]

/-! The same facts lifted over the `markAll` loop. -/

theorem lookupObj_markAllGo_unmark :
    ∀ (rs : List Nat) (h : Heap) (j : Nat),
    (lookupObj (markAllGo h rs) j).map unmarkObj = (lookupObj h j).map unmarkObj := by
  intro rs
  induction rs with
  | nil => intro h j; rfl
  | cons r rs ih =>
    intro h j
    rw [show markAllGo h (r :: rs) = markAllGo (mark h r) rs from rfl]
    rw [ih, mark]
    exact lookupObj_markFuel_unmark _ _ _ _

theorem lookupObj_markAllGo_none {rs : List Nat} {h : Heap} {j : Nat} :
    lookupObj (markAllGo h rs) j = none ↔ lookupObj h j = none := by
  have := lookupObj_markAllGo_unmark rs h j
  constructor <;> intro hn <;> rw [hn] at this
  · exact Option.map_eq_none'.mp this.symm
  · exact Option.map_eq_none'.mp this

theorem markedIn_markAllGo_mono :
    ∀ (rs : List Nat) (h : Heap) {j : Nat},
    markedIn h j → markedIn (markAllGo h rs) j := by
  intro rs
  induction rs with
  | nil => intro h j hm; exact hm
  | cons r rs ih =>
    intro h j hm
    rw [show markAllGo h (r :: rs) = markAllGo (mark h r) rs from rfl]
    exact ih _ (markedIn_markFuel_mono _ _ _ hm)

/-- Every stack entry that is a live object is marked once `markAll`'s loop
has run. -/
theorem markAllGo_marks_root :
    ∀ (rs : List Nat) (h : Heap) {r : Nat} {o : Object},
    r ∈ rs → lookupObj h r = some o → markedIn (markAllGo h rs) r := by
  intro rs
  induction rs with
  | nil => intro h r o hmem; simp at hmem
  | cons r' rs ih =>
    intro h r o hmem hl
    rw [show markAllGo h (r' :: rs) = markAllGo (mark h r') rs from rfl]
    rcases List.mem_cons.mp hmem with hre | hmem'
    · subst hre
      exact markedIn_markAllGo_mono rs _ (markFuel_marks_root (Nat.le_succ _) hl)
    · obtain ⟨o', hl'⟩ := @lookupObj_markFuel_isSome (unmarkedCount h + 1) h r' r o hl
      exact ih _ hmem' hl'

/-- Closure of the whole mark phase: a pair that went from unmarked to
marked has both of its edges marked (or dangling). -/
theorem markAllGo_closure :
    ∀ (rs : List Nat) (h : Heap) {j : Nat} {o : Object},
    lookupObj h j = some o → o.marked = false →
    markedIn (markAllGo h rs) j → o.type = ObjectType.OBJ_PAIR →
    (lookupObj h o.head = none ∨ markedIn (markAllGo h rs) o.head) ∧
    (lookupObj h o.tail = none ∨ markedIn (markAllGo h rs) o.tail) := by
  intro rs
  induction rs with
  | nil =>
    intro h j o hlj hom hmk hot
    exact absurd hmk (not_markedIn_of_unmarked hlj hom)
  | cons r rs ih =>
    intro h j o hlj hom hmk hot
    rw [show markAllGo h (r :: rs) = markAllGo (mark h r) rs from rfl] at hmk ⊢
    by_cases h1m : markedIn (mark h r) j
    · have hcl := markFuel_closure (unmarkedCount h + 1) h r (Nat.le_succ _)
        hlj hom h1m hot
      constructor
      · cases hcl.1 with
        | inl hn => exact Or.inl hn
        | inr hm => exact Or.inr (markedIn_markAllGo_mono rs _ hm)
      · cases hcl.2 with
        | inl hn => exact Or.inl hn
        | inr hm => exact Or.inr (markedIn_markAllGo_mono rs _ hm)
    · have hlj1 : lookupObj (mark h r) j = some o :=
        lookupObj_markFuel_unmarked_eq hlj hom h1m
      have hcl := ih (mark h r) hlj1 hom hmk hot
      constructor
      · cases hcl.1 with
        | inl hn => exact Or.inl (lookupObj_markFuel_none.mp hn)
        | inr hm => exact Or.inr hm
      · cases hcl.2 with
        | inl hn => exact Or.inl (lookupObj_markFuel_none.mp hn)
        | inr hm => exact Or.inr hm

theorem Reaches_src_lookup {h : Heap} {i j : Nat} (hr : Reaches h i j) :
    ∃ o, lookupObj h i = some o := by
  cases hr with
  | refl _ o hl => exact ⟨o, hl⟩
  | viaHead _ o _ hl _ _ => exact ⟨o, hl⟩
  | viaTail _ o _ hl _ _ => exact ⟨o, hl⟩

theorem Reaches_dst_lookup {h : Heap} {i j : Nat} (hr : Reaches h i j) :
    ∃ o, lookupObj h j = some o := by
  induction hr with
  | refl _ o hl => exact ⟨o, hl⟩
  | viaHead _ _ _ _ _ _ ih => exact ih
  | viaTail _ _ _ _ _ _ ih => exact ih

/-- When the collection begins with all marks clear (the rest state), the
mark phase marks everything reachable from any stack entry — cycles are
handled by the already-marked guard. -/
theorem markAllGo_reaches_marked {h : Heap} {roots : List Nat} {r j : Nat}
    (hall : allUnmarked h) (hmem : r ∈ roots) (hr : Reaches h r j) :
    markedIn (markAllGo h roots) j := by
  have haux : ∀ {a b : Nat}, Reaches h a b →
      markedIn (markAllGo h roots) a → markedIn (markAllGo h roots) b := by
    intro a b hab
    induction hab with
    | refl => exact id
    | viaHead i o j' hl ht hrr ih =>
      intro hmi
      have hom : o.marked = false := hall _ (lookupObj_mem hl)
      have hcl := markAllGo_closure roots h hl hom hmi ht
      cases hcl.1 with
      | inl hn =>
        obtain ⟨oh, hoh⟩ := Reaches_src_lookup hrr
        rw [hn] at hoh
        simp at hoh
      | inr hm => exact ih hm
    | viaTail i o j' hl ht hrr ih =>
      intro hmi
      have hom : o.marked = false := hall _ (lookupObj_mem hl)
      have hcl := markAllGo_closure roots h hl hom hmi ht
      cases hcl.2 with
      | inl hn =>
        obtain ⟨oh, hoh⟩ := Reaches_src_lookup hrr
        rw [hn] at hoh
        simp at hoh
      | inr hm => exact ih hm
  obtain ⟨o, hl⟩ := Reaches_src_lookup hr
  exact haux hr (markAllGo_marks_root roots h hmem hl)

/-! Sweep-phase lemmas. -/

/-- Sweep keeps every marked object, clearing its mark (babyvm.c line 113),
and keeps it at the same address. -/
theorem sweepGo_keeps_marked :
    ∀ {h : Heap} {j : Nat} {o : Object},
    lookupObj h j = some o → o.marked = true →
    lookupObj (sweepGo h).1 j = some { o with marked := false } := by
  intro h
  induction h with
  | nil => intro j o hl; simp [lookupObj] at hl
  | cons p rest ih =>
    intro j o hl hm
    by_cases hp : p.1 = j
    · simp [lookupObj, hp] at hl
      subst hl
      simp [sweepGo, hm, lookupObj, hp]
    · simp [lookupObj, hp] at hl
      by_cases hpm : p.2.marked = true
      · simp [sweepGo, hpm, lookupObj, hp]
        exact ih hl hm
      · simp [sweepGo, hpm]
        exact ih hl hm

/-- After the sweep every surviving object's mark is clear (babyvm.c line
113): collections leave the heap in the all-unmarked rest state. -/
theorem sweepGo_all_unmarked : ∀ (h : Heap), allUnmarked (sweepGo h).1 := by
  intro h
  induction h with
  | nil => intro p hp; simp [sweepGo] at hp
  | cons q rest ih =>
    intro p hp
    by_cases hqm : q.2.marked = true
    · simp [sweepGo, hqm] at hp
      rcases hp with hp | hp
      · rw [hp]
      · exact ih _ hp
    · simp [sweepGo, hqm] at hp
      exact ih _ hp

/-- The `freed` counter of the sweep accounts exactly for the dropped
entries. -/
theorem sweepGo_length : ∀ (h : Heap),
    (sweepGo h).1.length + (sweepGo h).2 = h.length := by
  intro h
  induction h with
  | nil => rfl
  | cons q rest ih =>
    by_cases hqm : q.2.marked = true <;> simp [sweepGo, hqm] <;> omega

/-- Marking changes no list structure: the mark phase preserves the length
of the allocation list. -/
theorem markFuel_length : ∀ (fuel : Nat) (h : Heap) (i : Nat),
    (markFuel fuel h i).length = h.length := by
  intro fuel
  induction fuel with
  | zero => intro h i; rfl
  | succ f ih =>
    intro h i
    cases hli : lookupObj h i with
    | none => rw [markFuel_none f hli]
    | some oi =>
      by_cases hoim : oi.marked = true
      · rw [markFuel_marked f hli hoim]
      · rw [Bool.not_eq_true] at hoim
        cases hot : oi.type with
        | OBJ_INT => rw [markFuel_int f hli hoim hot, hupd_length]
        | OBJ_PAIR => rw [markFuel_pair f hli hoim hot, ih, ih, hupd_length]

theorem markAllGo_length : ∀ (rs : List Nat) (h : Heap),
    (markAllGo h rs).length = h.length := by
  intro rs
  induction rs with
  | nil => intro h; rfl
  | cons r rs ih =>
    intro h
    rw [show markAllGo h (r :: rs) = markAllGo (mark h r) rs from rfl, ih, mark,
      markFuel_length]

/-- The central preservation fact: starting a collection from the rest
state (all marks clear), every object reachable from a stack entry is still
in the allocation list afterwards, with identical contents. -/
theorem gc_keeps_reachable {vm : VM} {r i : Nat}
    (hall : allUnmarked vm.firstObject) (hmem : r ∈ vm.stack)
    (hr : Reaches vm.firstObject r i) :
    ∃ o, lookupObj vm.firstObject i = some o ∧
      lookupObj (gc vm).firstObject i = some o := by
  obtain ⟨o, hl⟩ := Reaches_dst_lookup hr
  have hom : o.marked = false := hall _ (lookupObj_mem hl)
  obtain ⟨oH, hlH, hmH⟩ :=
    markAllGo_reaches_marked hall (List.mem_reverse.mpr hmem) hr
  have hmap := lookupObj_markAllGo_unmark vm.stack.reverse vm.firstObject i
  rw [hl, hlH] at hmap
  simp only [Option.map_some'] at hmap
  injection hmap with hmap'
  refine ⟨o, hl, ?_⟩
  show lookupObj (sweepGo (markAllGo vm.firstObject vm.stack.reverse)).1 i = some o
  rw [sweepGo_keeps_marked hlH hmH]
  rw [show ({ oH with marked := false } : Object) = unmarkObj oH from rfl, hmap',
    unmarkObj_eq_self hom]

/-! Context-level facts about the collector. -/

theorem gc_stack (vm : VM) : (gc vm).stack = vm.stack := rfl

theorem gc_nextId (vm : VM) : (gc vm).nextId = vm.nextId := rfl

theorem gc_firstObject (vm : VM) :
    (gc vm).firstObject = (sweepGo (markAllGo vm.firstObject vm.stack.reverse)).1 := rfl

/-- The roots themselves survive a collection that starts from the rest
state, with contents intact. -/
theorem gc_keeps_root {vm : VM} {r : Nat} {o : Object}
    (hall : allUnmarked vm.firstObject) (hmem : r ∈ vm.stack)
    (hl : lookupObj vm.firstObject r = some o) :
    lookupObj (gc vm).firstObject r = some o := by
  obtain ⟨o', hl', hgc⟩ := gc_keeps_reachable hall hmem (Reaches.refl r o hl)
  rw [hl] at hl'
  injection hl' with he
  rw [← he] at hgc
  exact hgc

/-- Collecting from a state with an accurate live count leaves the live
count accurate. -/
theorem gc_numObjects_accurate {vm : VM}
    (hacc : vm.numObjects = (vm.firstObject.length : Int)) :
    (gc vm).numObjects = ((gc vm).firstObject.length : Int) := by
  have h1 : (gc vm).numObjects
      = vm.numObjects - ((sweepGo (markAllGo vm.firstObject vm.stack.reverse)).2 : Int) := rfl
  have h2 := sweepGo_length (markAllGo vm.firstObject vm.stack.reverse)
  have h3 := markAllGo_length vm.stack.reverse vm.firstObject
  rw [gc_firstObject]
  omega

/-! Computation lemmas for the allocation paths. -/

/-- What `pushPair` does on a stack with at least two entries and room to
push the result: the collector may run (inside `newObject`, before the
pops), then the pair is allocated, `tail` receives the first popped
reference, `head` the second, and the pair is pushed. -/
theorem pushPair_eq {vm : VM} {a b : Nat} {rest : List Nat}
    (hs : vm.stack = a :: b :: rest) (hlt : rest.length < STACK_MAX) :
    pushPair vm =
      some ({ stack := vm.nextId :: rest,
              numObjects := (if vm.numObjects = vm.maxObjects then gc vm else vm).numObjects + 1,
              maxObjects := (if vm.numObjects = vm.maxObjects then gc vm else vm).maxObjects,
              firstObject :=
                (vm.nextId, { type := ObjectType.OBJ_PAIR, marked := false, value := 0,
                              head := b, tail := a })
                  :: (if vm.numObjects = vm.maxObjects then gc vm else vm).firstObject,
              nextId := vm.nextId + 1 }, vm.nextId) := by
  obtain ⟨stk, num, mx, fo, nid⟩ := vm
  simp only [VM.mk.injEq] at hs ⊢
  subst hs
  by_cases htr : num = mx
  · simp [pushPair, newObject, allocRaw, pop, push, hupd, htr, hlt, gc_stack, gc_nextId]
  · simp [pushPair, newObject, allocRaw, pop, push, hupd, htr, hlt]

/-- With fewer than two entries on the root set, the pair-allocation path
underflows on one of its two pops, and the abort propagates. -/
theorem pushPair_none_of_short {vm : VM} (hs : vm.stack.length < 2) :
    pushPair vm = none := by
  obtain ⟨stk, num, mx, fo, nid⟩ := vm
  match stk, hs with
  | [], _ =>
    by_cases htr : num = mx <;>
      simp [pushPair, newObject, allocRaw, pop, htr, gc_stack]
  | [x], _ =>
    by_cases htr : num = mx <;>
      simp [pushPair, newObject, allocRaw, pop, hupd, htr, gc_stack]

/-- What `pushInt` does when the stack has room: the collector may run,
then the integer object is allocated with the given value and pushed. -/
theorem pushInt_eq {vm : VM} {v : Int} (hlen : vm.stack.length < STACK_MAX) :
    pushInt vm v =
      some { stack := vm.nextId :: vm.stack,
             numObjects := (if vm.numObjects = vm.maxObjects then gc vm else vm).numObjects + 1,
             maxObjects := (if vm.numObjects = vm.maxObjects then gc vm else vm).maxObjects,
             firstObject :=
               (vm.nextId, { type := ObjectType.OBJ_INT, marked := false, value := v,
                             head := 0, tail := 0 })
                 :: (if vm.numObjects = vm.maxObjects then gc vm else vm).firstObject,
             nextId := vm.nextId + 1 } := by
  obtain ⟨stk, num, mx, fo, nid⟩ := vm
  by_cases htr : num = mx
  · simp only [] at hlen
    simp [pushInt, newObject, allocRaw, push, hupd, htr, hlen, gc_stack, gc_nextId]
  · simp only [] at hlen
    simp [pushInt, newObject, allocRaw, push, hupd, htr, hlen]

/-- C1: every object reachable (through `head`/`tail` edges, cycles
allowed) from some root-set entry at the moment a collection begins — with
the mark flags in their between-collections rest state — is still in the
allocation registry after `gc`, with identical contents: it is marked by
`markAll` and retained (and unmarked again) by `sweep`. -/
theorem c1_reachable_survives {vm : VM} {r i : Nat}
    (hall : allUnmarked vm.firstObject) (hmem : r ∈ vm.stack)
    (hr : Reaches vm.firstObject r i) :
    ∃ o, lookupObj vm.firstObject i = some o ∧
      lookupObj (gc vm).firstObject i = some o :=
  gc_keeps_reachable hall hmem hr

theorem c1_witness :
    allUnmarked vmCyc.firstObject ∧ 0 ∈ vmCyc.stack ∧
    (∃ o, lookupObj vmCyc.firstObject 1 = some o ∧
      lookupObj (gc vmCyc).firstObject 1 = some o) :=
  ⟨by decide, by decide,
    c1_reachable_survives (by decide) (by decide)
      (Reaches.viaTail 0
        { type := ObjectType.OBJ_PAIR, marked := false, value := 0, head := 1, tail := 0 }
        1 rfl rfl
        (Reaches.viaHead 0
          { type := ObjectType.OBJ_PAIR, marked := false, value := 0, head := 1, tail := 0 }
          1 rfl rfl
          (Reaches.refl 1
            { type := ObjectType.OBJ_INT, marked := false, value := 7, head := 0, tail := 0 }
            rfl)))⟩

/-- C3: immediately after any `gc`, the threshold field equals twice the
live count field as left by the sweep of that same collection; when the
live count is accurate going in, this is twice the number of objects in
the allocation registry after the sweep. -/
theorem c3_threshold_doubling (vm : VM) :
    (gc vm).maxObjects = 2 * (gc vm).numObjects ∧
    (vm.numObjects = (vm.firstObject.length : Int) →
      (gc vm).maxObjects = 2 * ((gc vm).firstObject.length : Int)) := by
  constructor
  · have h1 : (gc vm).maxObjects = (gc vm).numObjects * 2 := rfl
    rw [h1, Int.mul_comm]
  · intro hacc
    have h2 := gc_numObjects_accurate hacc
    have h1 : (gc vm).maxObjects = (gc vm).numObjects * 2 := rfl
    rw [h1, h2, Int.mul_comm]

theorem c3_witness :
    (gc vmCyc).maxObjects = 2 * (gc vmCyc).numObjects ∧
    (gc vmCyc).maxObjects = 2 * ((gc vmCyc).firstObject.length : Int) :=
  ⟨(c3_threshold_doubling vmCyc).1, (c3_threshold_doubling vmCyc).2 (by decide)⟩

/-- C4: the allocation path runs a collection if and only if the live
count equals the threshold — an equality comparison (babyvm.c line 157),
so unequal counts (even a live count above the threshold) allocate without
collecting. -/
theorem c4_trigger_is_equality (vm : VM) (t : ObjectType) :
    (vm.numObjects = vm.maxObjects → newObject vm t = allocRaw (gc vm) t) ∧
    (vm.numObjects ≠ vm.maxObjects → newObject vm t = allocRaw vm t) := by
  constructor
  · intro he
    rw [newObject, if_pos he]
  · intro hne
    rw [newObject, if_neg hne]

theorem c4_witness :
    newObject vmEqTrig ObjectType.OBJ_INT = allocRaw (gc vmEqTrig) ObjectType.OBJ_INT ∧
    newObject vmNeTrig ObjectType.OBJ_INT = allocRaw vmNeTrig ObjectType.OBJ_INT :=
  ⟨(c4_trigger_is_equality vmEqTrig ObjectType.OBJ_INT).1 rfl,
   (c4_trigger_is_equality vmNeTrig ObjectType.OBJ_INT).2 (by decide)⟩

/-- C5: `newVM` mallocs the context and initializes only the stack size
(babyvm.c lines 61-65); the live count and the registry head keep the
indeterminate values of the malloc'd memory, so with any non-zero junk in
the count field the live count does not equal the registry size right
after construction. -/
theorem c5_newVM_count_uninitialized :
    (newVM 1 0 [] 0).numObjects ≠ ((newVM 1 0 [] 0).firstObject.length : Int) := by
  decide

/-- C8 counterexample: `gc` is `void` — its entire observable result is
the updated context, and two contexts on which collections reclaim
different numbers of objects (0 and 1) produce identical results, so the
reclaimed count is not returned to the caller by `gc`. -/
theorem c8_gc_result_lacks_reclaim_count :
    gc vmGcA = gc vmGcB ∧ gcFreed vmGcA = 0 ∧ gcFreed vmGcB = 1 := by
  decide

/-- C8 (amended): the sweep phase of a collection computes a `freed`
counter — reported via diagnostic output, not returned — equal to the
number of objects removed from the allocation registry by that collection;
and the spec's `forceCollect` is exactly an unconditional run of `gc`. -/
theorem c8_sweep_freed_counts_reclaimed (vm : VM) :
    (gc vm).firstObject.length + gcFreed vm = vm.firstObject.length ∧
    forceCollect vm = gc vm := by
  constructor
  · rw [gc_firstObject]
    have h2 := sweepGo_length (markAllGo vm.firstObject vm.stack.reverse)
    have h3 := markAllGo_length vm.stack.reverse vm.firstObject
    have h4 : gcFreed vm = (sweepGo (markAllGo vm.firstObject vm.stack.reverse)).2 := rfl
    rw [h4]
    omega
  · rfl

/-- C9: `mark` terminates on every finite object graph, cyclic or not: any
fuel beyond the number of unmarked objects yields the same result (the
recursion performs at most one marking per object, because an object found
already marked returns immediately), and marking never unmarks, so each
object is marked at most once. -/
theorem c9_mark_terminates (h : Heap) (i : Nat) (fuel : Nat)
    (hf : unmarkedCount h < fuel) :
    markFuel fuel h i = mark h i ∧
    (∀ j, markedIn h j → markedIn (mark h i) j) :=
  ⟨markFuel_fuel_irrel fuel h i hf (Nat.lt_succ_self _),
   fun _ hm => markedIn_markFuel_mono _ _ _ hm⟩

theorem c9_witness :
    unmarkedCount cycHeap < 10 ∧
    (markFuel 10 cycHeap 0 = mark cycHeap 0 ∧
      (∀ j, markedIn cycHeap j → markedIn (mark cycHeap 0) j)) :=
  ⟨by decide, c9_mark_terminates cycHeap 0 10 (by decide)⟩

/-- With no room to push the result, the allocation paths abort with the
stack-overflow contract and return nothing. -/
theorem pushInt_none_of_full {vm : VM} {v : Int}
    (h : ¬vm.stack.length < STACK_MAX) : pushInt vm v = none := by
  obtain ⟨stk, num, mx, fo, nid⟩ := vm
  simp only [] at h
  by_cases htr : num = mx <;>
    simp [pushInt, newObject, allocRaw, push, hupd, htr, gc_stack, h]

theorem pushPair_none_of_full {vm : VM} {a b : Nat} {rest : List Nat}
    (hs : vm.stack = a :: b :: rest) (h : ¬rest.length < STACK_MAX) :
    pushPair vm = none := by
  obtain ⟨stk, num, mx, fo, nid⟩ := vm
  simp only [] at hs
  subst hs
  by_cases htr : num = mx <;>
    simp [pushPair, newObject, allocRaw, pop, push, hupd, htr, gc_stack, h]

/-- C2: constructing a pair pops the first operand into `second` (`tail`)
and the second operand into `first` (`head`), and in particular the spec's
scenario `allocateInteger 1; allocateInteger 2; allocatePair; pop` yields a
pair whose `first` is the Integer(1) object and whose `second` is the
Integer(2) object. -/
theorem c2_pair_pop_order :
    (∀ (vm : VM) (a b : Nat) (rest : List Nat),
      vm.stack = a :: b :: rest → rest.length < STACK_MAX →
      ∃ vm', pushPair vm = some (vm', vm.nextId) ∧
        lookupObj vm'.firstObject vm.nextId
          = some { type := ObjectType.OBJ_PAIR, marked := false, value := 0,
                   head := b, tail := a } ∧
        vm'.stack = vm.nextId :: rest) ∧
    ((pushInt (newVM 0 100 [] 0) 1).bind (fun v1 =>
      (pushInt v1 2).bind (fun v2 =>
        (pushPair v2).bind (fun pr =>
          (pop pr.1).map (fun q =>
            (q.1, lookupObj q.2.firstObject q.1,
             lookupObj q.2.firstObject 0, lookupObj q.2.firstObject 1)))))
      = some (2,
          some { type := ObjectType.OBJ_PAIR, marked := false, value := 0,
                 head := 0, tail := 1 },
          some { type := ObjectType.OBJ_INT, marked := false, value := 1,
                 head := 0, tail := 0 },
          some { type := ObjectType.OBJ_INT, marked := false, value := 2,
                 head := 0, tail := 0 })) := by
  constructor
  · intro vm a b rest hs hlt
    refine ⟨_, pushPair_eq hs hlt, ?_, rfl⟩
    simp [lookupObj]
  · decide

theorem c2_witness :
    ∃ vm', pushPair vmStk = some (vm', vmStk.nextId) ∧
      lookupObj vm'.firstObject vmStk.nextId
        = some { type := ObjectType.OBJ_PAIR, marked := false, value := 0,
                 head := 8, tail := 7 } ∧
      vm'.stack = vmStk.nextId :: [9] :=
  c2_pair_pop_order.1 vmStk 7 8 [9] rfl (by decide)

/-- C7: pushing onto a full root set aborts with the stack-overflow
contract, popping an empty root set aborts with the stack-underflow
contract (as does the pair-allocation path, which pops twice), and the
aborted call yields no mutated state at all. -/
theorem c7_overflow_underflow (vm : VM) (x : Nat) :
    (STACK_MAX ≤ vm.stack.length → push vm x = none) ∧
    (vm.stack = [] → pop vm = none) ∧
    (vm.stack.length < 2 → pushPair vm = none) := by
  refine ⟨?_, ?_, ?_⟩
  · intro hfull
    rw [push, if_neg (Nat.not_lt.mpr hfull)]
  · intro he
    simp [pop, he]
  · exact pushPair_none_of_short

theorem c7_witness :
    STACK_MAX ≤ vmFull.stack.length ∧ push vmFull 3 = none ∧
    vmGcA.stack = [] ∧ pop vmGcA = none ∧
    vmOne.stack.length < 2 ∧ pushPair vmOne = none :=
  ⟨by decide, (c7_overflow_underflow vmFull 3).1 (by decide),
   rfl, (c7_overflow_underflow vmGcA 0).2.1 rfl,
   by decide, (c7_overflow_underflow vmOne 0).2.2 (by decide)⟩

theorem allUnmarked_trigger {vm : VM} (hall : allUnmarked vm.firstObject) :
    allUnmarked ((if vm.numObjects = vm.maxObjects then gc vm else vm).firstObject) := by
  split
  · rw [gc_firstObject]
    exact sweepGo_all_unmarked _
  · exact hall

/-- C6: outside an in-progress mark/sweep pass every registered object's
mark is clear — a collection unconditionally leaves the registry all-clear
(sweep resets survivors), both allocation paths preserve the all-clear
state (fresh objects start unmarked, and a triggered collection re-clears),
and `push`/`pop` do not touch the registry at all. -/
theorem c6_marks_clear_between_collections (vm : VM) (t : ObjectType) (v : Int) (x : Nat) :
    allUnmarked (gc vm).firstObject ∧
    (allUnmarked vm.firstObject → allUnmarked ((newObject vm t).1).firstObject) ∧
    (allUnmarked vm.firstObject →
      ∀ vm', pushInt vm v = some vm' → allUnmarked vm'.firstObject) ∧
    (allUnmarked vm.firstObject →
      ∀ vm' p, pushPair vm = some (vm', p) → allUnmarked vm'.firstObject) ∧
    (∀ vm', push vm x = some vm' → vm'.firstObject = vm.firstObject) ∧
    (∀ a vm', pop vm = some (a, vm') → vm'.firstObject = vm.firstObject) := by
  refine ⟨?_, ?_, ?_, ?_, ?_, ?_⟩
  · rw [gc_firstObject]
    exact sweepGo_all_unmarked _
  · intro hall p hp
    have hp' : p ∈ ((if vm.numObjects = vm.maxObjects then gc vm else vm).nextId,
        ({ type := t, marked := false, value := 0, head := 0, tail := 0 } : Object))
        :: (if vm.numObjects = vm.maxObjects then gc vm else vm).firstObject := hp
    rcases List.mem_cons.mp hp' with he | hm
    · rw [he]
    · exact allUnmarked_trigger hall _ hm
  · intro hall vm' hp
    by_cases hlen : vm.stack.length < STACK_MAX
    · rw [pushInt_eq hlen] at hp
      injection hp with he
      subst he
      intro p hp
      rcases List.mem_cons.mp hp with he | hm
      · rw [he]
      · exact allUnmarked_trigger hall _ hm
    · rw [pushInt_none_of_full hlen] at hp
      cases hp
  · intro hall vm' q hp
    rcases hstk : vm.stack with _ | ⟨a, _ | ⟨b, rest⟩⟩
    · rw [pushPair_none_of_short (by simp [hstk])] at hp
      cases hp
    · rw [pushPair_none_of_short (by simp [hstk])] at hp
      cases hp
    · by_cases hlt : rest.length < STACK_MAX
      · rw [pushPair_eq hstk hlt] at hp
        rw [Option.some.injEq, Prod.mk.injEq] at hp
        obtain ⟨he, _⟩ := hp
        subst he
        intro p hp
        rcases List.mem_cons.mp hp with he | hm
        · rw [he]
        · exact allUnmarked_trigger hall _ hm
      · rw [pushPair_none_of_full hstk hlt] at hp
        cases hp
  · intro vm' hp
    simp only [push] at hp
    split at hp
    · injection hp with he
      rw [← he]
    · cases hp
  · intro a vm' hp
    rcases hstk : vm.stack with _ | ⟨y, ys⟩
    · simp [pop, hstk] at hp
    · simp [pop, hstk] at hp
      obtain ⟨he1, he2⟩ := hp
      rw [← he2]

theorem c6_witness :
    allUnmarked (gc vmOps).firstObject ∧
    allUnmarked ((newObject vmOps ObjectType.OBJ_INT).1).firstObject ∧
    allUnmarked vmOpsInt.firstObject ∧
    allUnmarked vmOpsPair.firstObject ∧
    ({ vmOps with stack := [9, 0, 1] } : VM).firstObject = vmOps.firstObject ∧
    ({ vmOps with stack := [1] } : VM).firstObject = vmOps.firstObject := by
  have hc := c6_marks_clear_between_collections vmOps ObjectType.OBJ_INT 3 9
  exact ⟨hc.1,
    hc.2.1 (by decide),
    hc.2.2.1 (by decide) vmOpsInt (by decide),
    hc.2.2.2.1 (by decide) vmOpsPair 2 (by decide),
    hc.2.2.2.2.1 { vmOps with stack := [9, 0, 1] } (by decide),
    hc.2.2.2.2.2 0 { vmOps with stack := [1] } (by decide)⟩

/-- C10: in the pair-allocation path any triggered collection runs inside
`newObject`, before the two operands are popped, so at that moment both
operands are still root-set entries; they therefore survive that
collection, with contents intact, and sit in the new context's registry —
the operands of a pair are never reclaimed by the collection its own
allocation triggers. -/
theorem c10_operands_survive {vm : VM} {a b : Nat} {rest : List Nat} {oa ob : Object}
    (hs : vm.stack = a :: b :: rest) (hlt : rest.length < STACK_MAX)
    (hall : allUnmarked vm.firstObject) (hkeys : keysLt vm.firstObject vm.nextId)
    (hla : lookupObj vm.firstObject a = some oa)
    (hlb : lookupObj vm.firstObject b = some ob) :
    ∃ vm', pushPair vm = some (vm', vm.nextId) ∧
      lookupObj vm'.firstObject a = some oa ∧
      lookupObj vm'.firstObject b = some ob := by
  have hamem : a ∈ vm.stack := by
    rw [hs]
    exact List.mem_cons_self _ _
  have hbmem : b ∈ vm.stack := by
    rw [hs]
    exact List.mem_cons_of_mem _ (List.mem_cons_self _ _)
  have hane : ¬vm.nextId = a := by
    have := hkeys _ (lookupObj_mem hla)
    omega
  have hbne : ¬vm.nextId = b := by
    have := hkeys _ (lookupObj_mem hlb)
    omega
  refine ⟨_, pushPair_eq hs hlt, ?_, ?_⟩
  · simp only [lookupObj]
    rw [if_neg hane]
    by_cases htr : vm.numObjects = vm.maxObjects
    · rw [if_pos htr]
      exact gc_keeps_root hall hamem hla
    · rw [if_neg htr]
      exact hla
  · simp only [lookupObj]
    rw [if_neg hbne]
    by_cases htr : vm.numObjects = vm.maxObjects
    · rw [if_pos htr]
      exact gc_keeps_root hall hbmem hlb
    · rw [if_neg htr]
      exact hlb

theorem c10_witness :
    ∃ vm', pushPair vmOps = some (vm', vmOps.nextId) ∧
      lookupObj vm'.firstObject 0
        = some { type := ObjectType.OBJ_INT, marked := false, value := 5,
                 head := 0, tail := 0 } ∧
      lookupObj vm'.firstObject 1
        = some { type := ObjectType.OBJ_INT, marked := false, value := 6,
                 head := 0, tail := 0 } :=
  c10_operands_survive rfl (by decide) (by decide) (by decide) rfl rfl
